import Mathlib

/-!
# Verification of the benchmark-log ingestion and speedup-derivation pipeline

This file gives a shallow embedding, over the rationals, of the ingestion and
metric-derivation code of the `parallelSystems` repository's plotting scripts,
and settles the frozen claims about it.

Conventions used throughout:

* Python `float` values are modelled as `ℚ`.  All numeric literals appearing in
  the scripts' inputs are decimal, hence exactly representable.
* Python `dict`s are modelled as association lists (`List (K × V)`) with
  lookup of the unique binding per key and a replace-or-append setter, which
  matches `d[k] = v` / `d.get(k)` / `k in d` semantics exactly.
* Regular-expression matching is the grammar-specific extraction layer; a raw
  log line is modelled by the result of applying each of the script's compiled
  patterns to it (an `Option` per pattern, carrying the captured groups).  The
  line-scanning control flow that consumes those match results is translated
  statement by statement from the sources.
* `print` calls made on discard/skip paths are modelled by an explicit
  diagnostics list where a claim is about them.
-/

namespace Py

variable {K V : Type} [DecidableEq K]

/-- Association-list model of a Python `dict`: lookup of the unique binding
for a key, mirroring `d.get(k)` / `d[k]`. -/
def get? : List (K × V) → K → Option V
  | [], _ => none
  | (k', v) :: d, k => if k' = k then some v else get? d k

/-- `d[k] = v`: replace the binding if the key is present, else append. -/
def set : List (K × V) → K → V → List (K × V)
  | [], k, v => [(k, v)]
  | (k', v') :: d, k, v => if k' = k then (k, v) :: d else (k', v') :: set d k v

/-- `k in d`. -/
def hasKey (d : List (K × V)) (k : K) : Bool := (get? d k).isSome

/-- The key list of a dict (`d.keys()`). -/
def keys (d : List (K × V)) : List K := d.map (·.1)

end Py

/-- The minimum of a list of rationals, `none` on the empty list. -/
def minQ? : List ℚ → Option ℚ
  | [] => none
  | x :: xs =>
    match minQ? xs with
    | none => some x
    | some m => some (min x m)

/-! ## `lab2/kmeans/diagram_generator/plot_all_results.py` — `aggregate_runs`

The entries consumed by `aggregate_runs` are the dictionaries produced by
`diagram_gen.parse_results` (embedded further below); a file is its label
together with its parsed entry list (a file whose parse raised, or produced
no entries, contributes the empty list and is skipped, as in the source). -/

/-- One entry of `parse_results`: the optional captured fields of a run block. -/
structure KmeansEntry where
  dataset_size_MB : Option ℚ
  numObjs : Option Nat
  numCoords : Option Nat
  numClusters : Option Nat
  numThreads : Option Nat
  nloops : Option Nat
  total_time_s : Option ℚ
  per_loop_time_s : Option ℚ
deriving DecidableEq, Repr

/-- A result file as seen by `aggregate_runs`: its label (from
`label_for_path`) and the entries `parse_results` returned for it. -/
structure KmeansFile where
  label : String
  entries : List KmeansEntry
deriving DecidableEq, Repr

/-- `(dataset_size_MB, numCoords, numClusters)` — the config key built by
`aggregate_runs`. -/
abbrev KmeansConfigKey := Option ℚ × Option Nat × Option Nat

/-- Metadata stored per label. -/
structure KmeansMeta where
  dataset_size_MB : Option ℚ
  numCoords : Option Nat
  numClusters : Option Nat
  numObjs : Option Nat
deriving DecidableEq, Repr

/-- The four dictionaries `aggregate_runs` accumulates. -/
structure AggState where
  data : List (String × List (Nat × ℚ))
  raw_entries : List (String × List (Nat × ℚ))
  metadata : List (String × KmeansMeta)
  sequential_data : List (KmeansConfigKey × ℚ)
deriving Repr

def AggState.init : AggState := ⟨[], [], [], []⟩

/-- `'sequential' in label.lower()`. -/
def isSequentialLabel (label : String) : Bool :=
  (label.toLower.splitOn "sequential").length ≠ 1

def metaOf (e : KmeansEntry) : KmeansMeta :=
  ⟨e.dataset_size_MB, e.numCoords, e.numClusters, e.numObjs⟩

def configKeyOf (e : KmeansEntry) : KmeansConfigKey :=
  (e.dataset_size_MB, e.numCoords, e.numClusters)

/-- `if label not in metadata: metadata[label] = {...}`. -/
def metaUpdate (m : List (String × KmeansMeta)) (label : String) (e : KmeansEntry) :
    List (String × KmeansMeta) :=
  if Py.hasKey m label then m else Py.set m label (metaOf e)

/-- `data[label][t] = min(data[label][t], time)` if present, else `= time`:
the explicit minimum duplicate policy of `aggregate_runs`. -/
def updateMin (m : List (Nat × ℚ)) (tv : Nat) (tm : ℚ) : List (Nat × ℚ) :=
  match Py.get? m tv with
  | some old => Py.set m tv (min old tm)
  | none => Py.set m tv tm

/-- The body of the inner `for e in entries` loop of `aggregate_runs`. -/
def aggEntryStep (label : String) (st : AggState) (e : KmeansEntry) : AggState :=
  if isSequentialLabel label && e.per_loop_time_s.isSome && e.numThreads.isNone then
    { st with
      sequential_data :=
        Py.set st.sequential_data (configKeyOf e) (e.per_loop_time_s.getD 0)
      metadata := metaUpdate st.metadata label e }
  else
    match e.numThreads, e.per_loop_time_s with
    | some tv, some tm =>
      { st with
        data := Py.set st.data label (updateMin ((Py.get? st.data label).getD []) tv tm)
        raw_entries :=
          Py.set st.raw_entries label ((Py.get? st.raw_entries label).getD [] ++ [(tv, tm)])
        metadata := metaUpdate st.metadata label e }
    | _, _ => st

/-- `aggregate_runs`: fold over the files, each contributing its label and
entries; empty entry lists are skipped (`if not entries: continue`). -/
def aggregate_runs (files : List KmeansFile) : AggState :=
  files.foldl
    (fun st f =>
      if f.entries.isEmpty then st
      else f.entries.foldl (aggEntryStep f.label) st)
    AggState.init

/-- The observed (parallel) times recorded for a `(label, nthreads)` pair in
`raw_entries` — exactly the duplicates the Normalizer must resolve. -/
def observedTimes (st : AggState) (label : String) (t : Nat) : List ℚ :=
  ((Py.get? st.raw_entries label).getD []).filterMap
    (fun p => if p.1 = t then some p.2 else none)

/-! ## Sorting helpers (Python `sorted`)

`sorted` on ints, on `(int, tuple-of-ints)` keys and on strings, modelled by
insertion sort with the corresponding strict comparison. -/

def natLtB (a b : Nat) : Bool := a < b

def natListLtB : List Nat → List Nat → Bool
  | [], [] => false
  | [], _ :: _ => true
  | _ :: _, [] => false
  | a :: as, b :: bs => if a < b then true else if b < a then false else natListLtB as bs

/-- `(size, percents)` key of the concurrent-linked-list scripts. -/
abbrev ConcKey := Nat × List Nat

def concKeyLtB (k1 k2 : ConcKey) : Bool :=
  if k1.1 < k2.1 then true else if k2.1 < k1.1 then false else natListLtB k1.2 k2.2

def strLtB (a b : String) : Bool := decide (a < b)

def insortBy (lt : α → α → Bool) (x : α) : List α → List α
  | [] => [x]
  | y :: ys => if lt x y then x :: y :: ys else y :: insortBy lt x ys

def sortBy (lt : α → α → Bool) : List α → List α
  | [] => []
  | x :: xs => insortBy lt x (sortBy lt xs)

/-! ## `lab2/conc_ll/plot_speedups.py` — `parse_conc_ll_results` and `plot_speedup`

The two `re.findall`/`re.split` passes are the extraction layer: their match
lists are the input.  A serial match is one `(SIZE, PERCENTS, throughput)`
capture of `serial_pattern`; a block is one `(NTHREADS, SIZE, PERCENTS)`
header group of `re.split(header_pattern, ...)` together with the
`(impl, throughput)` matches of `impl_pattern` inside its block content. -/

structure SerialMatch where
  size : Nat
  percents : List Nat
  throughput : ℚ
deriving DecidableEq, Repr

structure ConcBlock where
  nthreads : Nat
  size : Nat
  percents : List Nat
  impls : List (String × ℚ)
deriving DecidableEq, Repr

abbrev ConcData := List (ConcKey × List (String × List (Nat × ℚ)))

/-- Serial-baseline pass: `if key not in serial_baselines: serial_baselines[key] = ...`
(first occurrence kept). -/
def serialFold (ms : List SerialMatch) : List (ConcKey × ℚ) :=
  ms.foldl
    (fun d m => if Py.hasKey d (m.size, m.percents) then d else Py.set d (m.size, m.percents) m.throughput)
    []

/-- One impl match of a block: `data[key][impl_name][nthreads] = throughput`
(creating the inner dicts when absent, as the `not in` checks do). -/
def concImplStep (nt size : Nat) (pc : List Nat) (data : ConcData) (m : String × ℚ) :
    ConcData :=
  let key : ConcKey := (size, pc)
  let d1 := (Py.get? data key).getD []
  let d2 := (Py.get? d1 m.1).getD []
  Py.set data key (Py.set d1 m.1 (Py.set d2 nt m.2))

/-- Per-block parallel pass over the block's impl matches, in order. -/
def concBlockStep (data : ConcData) (b : ConcBlock) : ConcData :=
  b.impls.foldl (concImplStep b.nthreads b.size b.percents) data

def parse_conc_ll_results (serialMatches : List SerialMatch) (blocks : List ConcBlock) :
    List (ConcKey × ℚ) × ConcData :=
  (serialFold serialMatches, blocks.foldl concBlockStep [])

/-- Lookup through the three nested dicts `data[key][impl][nthreads]`. -/
def nestedGet (data : ConcData) (key : ConcKey) (impl : String) (nt : Nat) : Option ℚ :=
  Py.get? ((Py.get? ((Py.get? data key).getD []) impl).getD []) nt

/-- The last throughput matched for a given implementation name in a block —
what last-write-wins overwriting retains. -/
def lastVal? (ms : List (String × ℚ)) (impl : String) : Option ℚ :=
  ms.foldl (fun acc m => if m.1 = impl then some m.2 else acc) none

/-- `sorted(set(threads for impl_results in impl_data.values() for ...))`. -/
def allThreadsOf (impl_data : List (String × List (Nat × ℚ))) : List Nat :=
  sortBy natLtB ((impl_data.map (fun p => Py.keys p.2)).flatten).dedup

/-- The `(threads, speedups)` pairs plotted for one implementation:
`speedup = results[t] / serial_throughput` for each `t in all_threads` that
is present in `results`. -/
def speedupSeriesFor (serial : ℚ) (all_threads : List Nat) (results : List (Nat × ℚ)) :
    List (Nat × ℚ) :=
  all_threads.filterMap (fun t => (Py.get? results t).map (fun v => (t, v / serial)))

/-- One speedup figure of `plot_speedup`. -/
structure ConcFig where
  key : ConcKey
  all_threads : List Nat
  series : List (String × List (Nat × ℚ))
deriving DecidableEq, Repr

/-- The missing-baseline warning printed by `plot_speedup`. -/
def concWarn (key : ConcKey) : String :=
  "Warning: No serial baseline for Size=" ++ toString key.1 ++
    ", Workload=" ++ toString key.2

def mkConcFig (key : ConcKey) (serial : ℚ) (impl_data : List (String × List (Nat × ℚ))) :
    ConcFig :=
  let ats := allThreadsOf impl_data
  { key := key
    all_threads := ats
    series :=
      (sortBy (fun p q => strLtB p.1 q.1) impl_data).filterMap (fun p =>
        let s := speedupSeriesFor serial ats p.2
        if s.isEmpty then none else some (p.1, s)) }

/-- The `for config_key, impl_data in sorted(data.items())` loop body:
missing baseline → warning and `continue`; otherwise one figure. -/
def plotSpeedupGo (sb : List (ConcKey × ℚ)) :
    ConcData → List ConcFig × List String
  | [] => ([], [])
  | (key, impl_data) :: rest =>
    match Py.get? sb key with
    | none =>
      let r := plotSpeedupGo sb rest
      (r.1, concWarn key :: r.2)
    | some serial =>
      let r := plotSpeedupGo sb rest
      (mkConcFig key serial impl_data :: r.1, r.2)

def plot_speedup (sb : List (ConcKey × ℚ)) (data : ConcData) :
    List ConcFig × List String :=
  plotSpeedupGo sb (sortBy (fun p q => concKeyLtB p.1 q.1) data)

/-! ## `lab2/kmeans_locks/analyze_performance.py` — module-level analysis

Input: the result of `parse_sequential` (`None` on no match / missing file)
and, per lock implementation in declaration order, the dict returned by
`parse_parallel`.  `exit(1)` is modelled as `Except.error`. -/

structure LocksOutput where
  thread_counts : List Nat
  /-- Plot 1 bars: `[data.get(t, 0) for t in thread_counts]`. -/
  timeSeries : List (String × List ℚ)
  /-- Plot 2 bars: `[seq_time / data.get(t, seq_time) for t in thread_counts]`. -/
  speedupSeries : List (String × List ℚ)
  /-- Summary table: `seq_time / data[t]` when `t in data`, else `N/A`. -/
  speedupTable : List (String × List (Option ℚ))
  /-- Efficiency table: `(speedup / t) * 100` when `t in data`, else `N/A`. -/
  efficiencyTable : List (String × List (Option ℚ))
deriving DecidableEq, Repr

/-- Plot 1 bar value: `data.get(t, 0)` — zero for a missing thread count. -/
def locksTimeEntry (d : List (Nat × ℚ)) (t : Nat) : ℚ := (Py.get? d t).getD 0

/-- Plot 2 bar value: `seq_time / data.get(t, seq_time)` — the sequential
time is substituted for a missing measurement. -/
def locksSpeedupEntry (seq_time : ℚ) (d : List (Nat × ℚ)) (t : Nat) : ℚ :=
  seq_time / (Py.get? d t).getD seq_time

/-- Summary-table cell: `seq_time / data[t]` when `t in data`, else `N/A`. -/
def locksTableEntry (seq_time : ℚ) (d : List (Nat × ℚ)) (t : Nat) : Option ℚ :=
  (Py.get? d t).map (fun v => seq_time / v)

/-- Efficiency-table cell: `speedup = seq_time / data[t]`;
`efficiency = (speedup / t) * 100` when `t in data`, else `N/A`. -/
def locksEffEntry (seq_time : ℚ) (d : List (Nat × ℚ)) (t : Nat) : Option ℚ :=
  (Py.get? d t).map (fun v => seq_time / v / (t : ℚ) * 100)

def analyze_performance (seqTime? : Option ℚ) (parsed : List (String × List (Nat × ℚ))) :
    Except String LocksOutput :=
  match seqTime? with
  | none => .error "Error: Could not parse sequential time. Exiting."
  | some seq_time =>
    let all_data := parsed.filter (fun p => !p.2.isEmpty)
    match all_data with
    | [] => .error "Error: No parallel data found. Exiting."
    | first :: _ =>
      let thread_counts := sortBy natLtB (Py.keys first.2)
      .ok
        { thread_counts := thread_counts
          timeSeries :=
            all_data.map (fun p => (p.1, thread_counts.map (locksTimeEntry p.2)))
          speedupSeries :=
            all_data.map (fun p => (p.1, thread_counts.map (locksSpeedupEntry seq_time p.2)))
          speedupTable :=
            all_data.map (fun p => (p.1, thread_counts.map (locksTableEntry seq_time p.2)))
          efficiencyTable :=
            all_data.map (fun p => (p.1, thread_counts.map (locksEffEntry seq_time p.2))) }

/-! ## `Lab1/diagrams/diagram.py` — per-size speedup lists

`speedup[size] = [round(time_list[0] / time_list[i], 4) for i]`.  Python's
`round` (banker's rounding) is modelled on `ℚ`; the scripts' values are
decimal, and no claim instance sits on a half-way tie. -/

/-- Round-half-to-even to an integer. -/
def roundHalfEven (q : ℚ) : ℤ :=
  if q - ⌊q⌋ < 1/2 then ⌊q⌋
  else if 1/2 < q - ⌊q⌋ then ⌊q⌋ + 1
  else if ⌊q⌋ % 2 = 0 then ⌊q⌋ else ⌊q⌋ + 1

/-- Python `round(q, 4)`. -/
def pyRound4 (q : ℚ) : ℚ := (roundHalfEven (q * 10000) : ℚ) / 10000

/-- One size's speedup list; `time_list[0]` (the 1-thread run) is the
baseline.  `results` lists are nonempty by construction (`defaultdict`
appends), so the `[]` arm is unreachable. -/
def diagramSpeedupRow (time_list : List ℚ) : List ℚ :=
  match time_list with
  | [] => []
  | t0 :: _ => time_list.map (fun ti => pyRound4 (t0 / ti))

def diagramSpeedup (times : List (Nat × List ℚ)) : List (Nat × List ℚ) :=
  times.map (fun p => (p.1, diagramSpeedupRow p.2))

/-! ## `lab3/plot_all_speedups.py` — `parse_results`

A section (text between `~~~` separators) is modelled by its match results:
whether it contains `'block_size'`, the captured `block_size`, the number
captured by `t_loop_avg = (...) ms` (a millisecond value), and the cleaned
implementation name when the header pattern matched. -/

structure Lab3Section where
  hasBlockSize : Bool
  bs : Option Nat
  t_loop_avg : Option ℚ
  implName : Option String
deriving DecidableEq, Repr

/-- The per-section loop: failed `bs`/`t_loop_avg` extraction raises
`AttributeError`, caught and skipped; a missing impl header `continue`s;
otherwise `impl_data[impl].append({'bs': bs, 'time': t_loop_avg})` — the
captured millisecond value is stored unchanged. -/
def lab3SectionStep (impl_data : List (String × List (Nat × ℚ))) (s : Lab3Section) :
    List (String × List (Nat × ℚ)) :=
  if !s.hasBlockSize then impl_data
  else
    match s.bs, s.t_loop_avg with
    | some bs, some t =>
      match s.implName with
      | some impl =>
        Py.set impl_data impl ((Py.get? impl_data impl).getD [] ++ [(bs, t)])
      | none => impl_data
    | _, _ => impl_data

def lab3_parse_sections (sections : List Lab3Section) : List (String × List (Nat × ℚ)) :=
  sections.foldl lab3SectionStep []

/-- `seq_time = float(match) if seq_section else 0` — again the captured
millisecond value, unconverted. -/
def lab3_seq_time (seqMatch : Option ℚ) : ℚ := seqMatch.getD 0

/-! ## `lab2/kmeans/diagram_generator/diagram_gen.py` — `parse_results`

A line is modelled by its three possible match results.  The scan is the
source's `while` loop: a header opens an entry; the block scan inherits
until the next header, recording `numThreads` and stopping at the first
timing line.  The `fuel` argument bounds the outer loop; it is initialised
to the line count, which the loop can never exceed since every outer
iteration consumes at least one line. -/

structure KgLine where
  headerM : Option (ℚ × Nat × Nat × Nat)
  threadsM : Option Nat
  timingM : Option (Nat × ℚ × ℚ)
deriving DecidableEq, Repr

def kgInitEntry (h : ℚ × Nat × Nat × Nat) : KmeansEntry :=
  { dataset_size_MB := some h.1
    numObjs := some h.2.1
    numCoords := some h.2.2.1
    numClusters := some h.2.2.2
    numThreads := none
    per_loop_time_s := none
    nloops := none
    total_time_s := none }

/-- `entry["numThreads"] = int(mt.group(1))` when the threads pattern hit. -/
def kgApplyThreads (ln : KgLine) (e : KmeansEntry) : KmeansEntry :=
  match ln.threadsM with
  | some k => { e with numThreads := some k }
  | none => e

/-- The inner `while j < len(lines)` scan: stop at the next header
(returning it unconsumed), record threads matches, stop after the first
timing match (resuming at that line, which the outer loop then skips). -/
def kgScanBlock : List KgLine → KmeansEntry → KmeansEntry × List KgLine
  | [], e => (e, [])
  | ln :: rest, e =>
    if ln.headerM.isSome then (e, ln :: rest)
    else
      match ln.timingM with
      | some (nl, tot, per) =>
        ({ kgApplyThreads ln e with
            nloops := some nl, total_time_s := some tot, per_loop_time_s := some per },
          ln :: rest)
      | none => kgScanBlock rest (kgApplyThreads ln e)

def kgScan : Nat → List KgLine → List KmeansEntry
  | 0, _ => []
  | _, [] => []
  | fuel + 1, ln :: rest =>
    match ln.headerM with
    | some h =>
      let r := kgScanBlock rest (kgInitEntry h)
      r.1 :: kgScan fuel r.2
    | none => kgScan fuel rest

def diagram_gen_parse_results (lines : List KgLine) : List KmeansEntry :=
  kgScan lines.length lines

/-! ## `lab2/FW/plot_recursive_fw.py` — `parse_fw_recursive` and `make_plots`

A line carries the optional match results of the four patterns the source
applies to it (`size_re`, `serial_re`, `thread_time_re`, and the literal
`nthreads=(\d+)` search used by the backward scan).  The diagnostics
component of the parse collects the messages printed while parsing; the
source's parse loop prints nothing (the out-of-window skip is a bare
`continue`). -/

structure FwLine where
  sizeM : Option (Nat × Nat)
  serialM : Option (Nat × ℚ)
  threadM : Option (Nat × ℚ)
  nthreadsM : Option Nat
deriving DecidableEq, Repr

structure FwSizeData where
  serial : Option ℚ
  threads : List (Nat × ℚ)
deriving DecidableEq, Repr

/-- The backward scan `for j in range(i-1, max(i-6, -1), -1)`: at most five
preceding lines, nearest first, stopping at the start of the file. -/
def searchNthreads (all : List FwLine) : Nat → Nat → Option Nat
  | _, 0 => none
  | j, fuel + 1 =>
    match (all.get? j).bind (·.nthreadsM) with
    | some k => some k
    | none => if j = 0 then none else searchNthreads all (j - 1) fuel

def fwLookback (all : List FwLine) (i : Nat) : Option Nat :=
  if i = 0 then none else searchNthreads all (i - 1) 5

/-- The thread-timing branch: record under the looked-up `nthreads`, or skip
(bare `continue`, no diagnostic) when the window search fails. -/
def fwThreadUpdate (all : List FwLine) (i : Nat) (n : Nat) (ln : FwLine)
    (data : List (Nat × FwSizeData)) : List (Nat × FwSizeData) :=
  match ln.threadM with
  | some tt =>
    if tt.1 = n then
      match fwLookback all i with
      | none => data
      | some k =>
        let d := (Py.get? data n).getD ⟨none, []⟩
        Py.set data n { d with threads := Py.set d.threads k tt.2 }
    else data
  | none => data

def parseFwGo (all : List FwLine) :
    List FwLine → Nat → Option Nat → List (Nat × FwSizeData) × List String →
      List (Nat × FwSizeData) × List String
  | [], _, _, acc => acc
  | ln :: rest, i, cur, (data, diags) =>
    match ln.sizeM with
    | some nm => parseFwGo all rest (i + 1) (some nm.1) (Py.set data nm.1 ⟨none, []⟩, diags)
    | none =>
      match cur with
      | none => parseFwGo all rest (i + 1) cur (data, diags)
      | some n =>
        match ln.serialM with
        | some st =>
          if st.1 = n then
            parseFwGo all rest (i + 1) cur
              (Py.set data n { (Py.get? data n).getD ⟨none, []⟩ with serial := some st.2 }, diags)
          else parseFwGo all rest (i + 1) cur (fwThreadUpdate all i n ln data, diags)
        | none => parseFwGo all rest (i + 1) cur (fwThreadUpdate all i n ln data, diags)

def parse_fw_recursive (lines : List FwLine) : List (Nat × FwSizeData) × List String :=
  parseFwGo lines lines 0 none ([], [])

def fwCanonical : List Nat := [1, 2, 4, 8, 16, 32, 64]

/-- One figure pair of `make_plots`; `none` models the `float('nan')`
placeholder bars. -/
structure FwFig where
  size : Nat
  times : List (Option ℚ)
  speedups : List (Option ℚ)
deriving DecidableEq, Repr

/-- `serial / val if val is not None and val != 0 else float('nan')`. -/
def fwSpeedupEntry (serial : ℚ) (threads : List (Nat × ℚ)) (t : Nat) : Option ℚ :=
  match Py.get? threads t with
  | some val => if val = 0 then none else some (serial / val)
  | none => none

def fwMakePlotsGo : List (Nat × FwSizeData) → List FwFig × List String
  | [] => ([], [])
  | (size, d) :: rest =>
    match d.serial with
    | none =>
      let r := fwMakePlotsGo rest
      (r.1, ("Skipping size " ++ toString size ++ ": no serial time found") :: r.2)
    | some serial =>
      let fig : FwFig :=
        { size := size
          times := some serial :: fwCanonical.map (fun t => Py.get? d.threads t)
          speedups := some 1 :: fwCanonical.map (fun t => fwSpeedupEntry serial d.threads t) }
      let r := fwMakePlotsGo rest
      (fig :: r.1, r.2)

def make_plots (data : List (Nat × FwSizeData)) : List FwFig × List String :=
  fwMakePlotsGo (sortBy (fun p q => natLtB p.1 q.1) data)

/-! ## `lab4/heat_transfer/plot_mpi_performance.py` — `parse_mpi_results`

Line model: the `Num MPI Tasks` header match, the Jacobi timing match (which
carries its own size), or neither.  The loop inherits `current_num_procs`
from the last header seen; a timing line with no (or a falsy, i.e. zero)
current header is skipped. -/

inductive HeatLine where
  | numTasks (k : Nat)
  | jacobi (size : Nat) (comp comm conv total : ℚ)
  | other
deriving DecidableEq, Repr

structure HeatMetrics where
  computation : ℚ
  communication : ℚ
  convergence : ℚ
  total : ℚ
deriving DecidableEq, Repr

abbrev HeatData := List (Nat × List (Nat × HeatMetrics))

def heatStep (st : Option Nat × HeatData) (ln : HeatLine) : Option Nat × HeatData :=
  match ln with
  | .numTasks k => (some k, st.2)
  | .jacobi size comp comm conv total =>
    match st.1 with
    | some p =>
      if p ≠ 0 then
        (st.1, Py.set st.2 p (Py.set ((Py.get? st.2 p).getD []) size ⟨comp, comm, conv, total⟩))
      else st
    | none => st
  | .other => st

def parse_mpi_results (lines : List HeatLine) : HeatData :=
  (lines.foldl heatStep (none, [])).2

/-- The context the scan holds after a list of lines. -/
def heatScanCtx (lines : List HeatLine) : Option Nat :=
  (lines.foldl heatStep (none, [])).1

/-- The last `Num MPI Tasks` header value in a list of lines. -/
def lastNumTasks (lines : List HeatLine) : Option Nat :=
  lines.foldl (fun acc ln => match ln with | .numTasks k => some k | _ => acc) none

/-! ## `lab2/conc_ll/plots/plot.py` — module-level line scan and speedups

Line model: the implementation-name match, the `SIZE/PERCENTS` header match,
the result match, or none of them (the source tries them in that order; a
line is classified by the first pattern that hits).  The truthiness guard
`if res and current_impl and current_size and current_perc` is modelled
exactly (an empty name and a zero size are falsy). -/

inductive ClLine where
  | impl (name : String)
  | header (size : Nat) (p1 p2 p3 : Nat)
  | result (nthreads : Nat) (w1 w2 w3 : Nat) (throughput : ℚ)
  | other
deriving DecidableEq, Repr

abbrev ClKey := Nat × (Nat × Nat × Nat)

structure ClState where
  current_size : Option Nat
  current_perc : Option (Nat × Nat × Nat)
  current_impl : Option String
  data : List (ClKey × List (String × List (Nat × ℚ)))
  serial : List (ClKey × List (String × ℚ))
deriving DecidableEq, Repr

def clTruthyImpl : Option String → Bool
  | some s => s ≠ ""
  | none => false

def clTruthySize : Option Nat → Bool
  | some n => n ≠ 0
  | none => false

def clStep (st : ClState) (ln : ClLine) : ClState :=
  match ln with
  | .impl name => { st with current_impl := some name }
  | .header size p1 p2 p3 =>
    { st with current_size := some size, current_perc := some (p1, p2, p3) }
  | .result nthreads _ _ _ thr =>
    match st.current_size, st.current_perc, st.current_impl with
    | some size, some perc, some impl =>
      if size ≠ 0 ∧ impl ≠ "" then
        let key : ClKey := (size, perc)
        let d1 := (Py.get? st.data key).getD []
        let d2 := (Py.get? d1 impl).getD []
        { st with
          data := Py.set st.data key (Py.set d1 impl (Py.set d2 nthreads thr))
          serial :=
            if nthreads = 1 then
              Py.set st.serial key (Py.set ((Py.get? st.serial key).getD []) impl thr)
            else st.serial }
      else st
    | _, _, _ => st
  | .other => st

def clInit : ClState := ⟨none, none, none, [], []⟩

def clScan (lines : List ClLine) : ClState :=
  lines.foldl clStep clInit

/-- The last header size seen, for the context invariant. -/
def clLastSize (lines : List ClLine) : Option Nat :=
  lines.foldl (fun acc ln => match ln with | .header s _ _ _ => some s | _ => acc) none

/-- The last header workload seen. -/
def clLastPerc (lines : List ClLine) : Option (Nat × Nat × Nat) :=
  lines.foldl
    (fun acc ln => match ln with | .header _ p1 p2 p3 => some (p1, p2, p3) | _ => acc) none

/-- The last implementation-name line seen. -/
def clLastImpl (lines : List ClLine) : Option String :=
  lines.foldl (fun acc ln => match ln with | .impl n => some n | _ => acc) none

/-- `plot.py`'s speedup series for one implementation of one configuration:
`None` models the warned-and-skipped case (`impl not in serial[key]` or a
zero serial value); the keys of `runs` are all present, so the direct
indexing `runs[t]` is total. -/
def clSpeedupSeries (serialOfKey : List (String × ℚ)) (impl : String)
    (runs : List (Nat × ℚ)) : Option (List (Nat × ℚ)) :=
  match Py.get? serialOfKey impl with
  | none => none
  | some s =>
    if s = 0 then none
    else
      some ((sortBy natLtB (Py.keys runs)).filterMap
        (fun t => (Py.get? runs t).map (fun v => (t, v / s))))

/-! ## `lab4/kmeans/plot_mpi_results.py` — `generate_plots` speedups

`baseline_time = times[0]; speedups = [baseline_time / t for t in times]` —
no guard: a zero time raises `ZeroDivisionError`, modelled as `Except.error`
(and `times[0]` of an empty list as `IndexError`). -/

/-- The comprehension `[baseline_time / t for t in times]`, evaluated left
to right, raising at the first zero divisor. -/
def lab4MapDiv (t0 : ℚ) : List ℚ → Except String (List ℚ)
  | [] => .ok []
  | t :: ts =>
    if t = 0 then .error "ZeroDivisionError: float division by zero"
    else
      match lab4MapDiv t0 ts with
      | .ok rest => .ok (t0 / t :: rest)
      | .error e => .error e

def lab4_speedups (times : List ℚ) : Except String (List ℚ) :=
  match times with
  | [] => .error "IndexError: list index out of range"
  | t0 :: _ => lab4MapDiv t0 times

/-- Invariant tying each canonical `data` value to the minimum of the raw
observations bookkept alongside it by `aggregate_runs` itself. -/
def MinInv (st : AggState) : Prop :=
  ∀ label t,
    Py.get? ((Py.get? st.data label).getD []) t = minQ? (observedTimes st label t)

/-! ## Helper lemmas -/

@[simp] theorem Py.get?_nil {K V : Type} [DecidableEq K] (k : K) :
    Py.get? ([] : List (K × V)) k = none := rfl

@[simp] theorem Py.get?_set_self {K V : Type} [DecidableEq K] (d : List (K × V)) (k : K) (v : V) :
    Py.get? (Py.set d k v) k = some v := by
  induction d with
  | nil => simp [Py.set, Py.get?]
  | cons p d ih =>
    obtain ⟨k', v'⟩ := p
    by_cases h : k' = k
    · simp [Py.set, Py.get?, h]
    · simp [Py.set, Py.get?, h, ih]

theorem Py.get?_set_ne {K V : Type} [DecidableEq K] (d : List (K × V)) (k k' : K) (v : V)
    (h : k' ≠ k) : Py.get? (Py.set d k v) k' = Py.get? d k' := by
  induction d with
  | nil => simp [Py.set, Py.get?, Ne.symm h]
  | cons p d ih =>
    obtain ⟨k₀, v₀⟩ := p
    by_cases h0 : k₀ = k
    · subst h0
      simp [Py.set, Py.get?, Ne.symm h]
    · by_cases h1 : k₀ = k'
      · simp [Py.set, Py.get?, h0, h1, h]
      · simp [Py.set, Py.get?, h0, h1, h, ih]

theorem minQ?_append_singleton (l : List ℚ) (x : ℚ) :
    minQ? (l ++ [x]) =
      match minQ? l with
      | none => some x
      | some m => some (min m x) := by
  induction l with
  | nil => rfl
  | cons y ys ih =>
    show minQ? (y :: (ys ++ [x])) = _
    cases h : minQ? ys with
    | none =>
      have h1 : minQ? (ys ++ [x]) = some x := by rw [ih, h]
      simp only [minQ?, h1, h]
    | some m =>
      have h1 : minQ? (ys ++ [x]) = some (min m x) := by rw [ih, h]
      simp only [minQ?, h1, h, min_assoc]

/-! ## `aggregate_runs`: the minimum duplicate policy -/

theorem minInv_init : MinInv AggState.init := by
  intro label t
  simp [AggState.init, observedTimes, minQ?, Py.get?]

theorem minInv_step (label : String) (st : AggState) (e : KmeansEntry)
    (h : MinInv st) : MinInv (aggEntryStep label st e) := by
  intro label' t
  unfold aggEntryStep
  cases hseq : (isSequentialLabel label && e.per_loop_time_s.isSome && e.numThreads.isNone) with
  | true =>
    rw [if_pos rfl]
    exact h label' t
  | false =>
    rw [if_neg Bool.false_ne_true]
    cases ht : e.numThreads with
    | none => exact h label' t
    | some tv =>
      cases htime : e.per_loop_time_s with
      | none => exact h label' t
      | some tm =>
        show Py.get? ((Py.get? (Py.set st.data label
            (updateMin ((Py.get? st.data label).getD []) tv tm)) label').getD []) t =
          minQ? (((Py.get? (Py.set st.raw_entries label
            ((Py.get? st.raw_entries label).getD [] ++ [(tv, tm)])) label').getD []).filterMap
              (fun p => if p.1 = t then some p.2 else none))
        by_cases hlab : label = label'
        · subst hlab
          rw [Py.get?_set_self, Py.get?_set_self]
          simp only [Option.getD_some, List.filterMap_append]
          by_cases htt : tv = t
          · subst htt
            have hsingle : (List.filterMap
                (fun p : Nat × ℚ => if p.1 = tv then some p.2 else none) [(tv, tm)]) = [tm] := by
              simp
            rw [hsingle, minQ?_append_singleton]
            have hobs := h label tv
            unfold updateMin
            cases hold : Py.get? ((Py.get? st.data label).getD []) tv with
            | none =>
              rw [hold] at hobs
              rw [Py.get?_set_self, ← observedTimes, ← hobs]
            | some old =>
              rw [hold] at hobs
              rw [Py.get?_set_self, ← observedTimes, ← hobs]
          · have hsingle : (List.filterMap
                (fun p : Nat × ℚ => if p.1 = t then some p.2 else none) [(tv, tm)]) = [] := by
              simp [htt]
            rw [hsingle, List.append_nil]
            have hstep : Py.get? (updateMin ((Py.get? st.data label).getD []) tv tm) t =
                Py.get? ((Py.get? st.data label).getD []) t := by
              unfold updateMin
              cases hold : Py.get? ((Py.get? st.data label).getD []) tv with
              | none => exact Py.get?_set_ne _ _ _ _ (fun hh => htt (Eq.symm hh))
              | some old => exact Py.get?_set_ne _ _ _ _ (fun hh => htt (Eq.symm hh))
            rw [hstep, ← observedTimes]
            exact h label t
        · have hne : label' ≠ label := fun hh => hlab (Eq.symm hh)
          rw [Py.get?_set_ne _ _ _ _ hne, Py.get?_set_ne _ _ _ _ hne, ← observedTimes]
          exact h label' t

theorem minInv_foldl_entries (label : String) (entries : List KmeansEntry)
    (st : AggState) (h : MinInv st) :
    MinInv (entries.foldl (aggEntryStep label) st) := by
  induction entries generalizing st with
  | nil => exact h
  | cons e es ih => exact ih _ (minInv_step label st e h)

theorem minInv_aggregate_runs (files : List KmeansFile) :
    MinInv (aggregate_runs files) := by
  unfold aggregate_runs
  have main : ∀ (fs : List KmeansFile) (st : AggState), MinInv st →
      MinInv (fs.foldl (fun st f =>
        if f.entries.isEmpty then st
        else f.entries.foldl (aggEntryStep f.label) st) st) := by
    intro fs
    induction fs with
    | nil => intro st h; exact h
    | cons f fs ih =>
      intro st h
      apply ih
      by_cases he : f.entries.isEmpty
      · simpa [he] using h
      · simpa [he] using minInv_foldl_entries f.label f.entries st h
  exact main files AggState.init minInv_init

/-! ## `parse_conc_ll_results`: duplicate parallel measurements overwrite -/

theorem lastVal?_cons (m : String × ℚ) (ms : List (String × ℚ)) (impl : String) :
    lastVal? (m :: ms) impl =
      match lastVal? ms impl with
      | some v => some v
      | none => if m.1 = impl then some m.2 else none := by
  have gen : ∀ (l : List (String × ℚ)) (acc : Option ℚ),
      l.foldl (fun acc m => if m.1 = impl then some m.2 else acc) acc =
        match lastVal? l impl with
        | some v => some v
        | none => acc := by
    intro l
    induction l with
    | nil => intro acc; rfl
    | cons x xs ih =>
      intro acc
      show xs.foldl _ (if x.1 = impl then some x.2 else acc) = _
      rw [ih]
      have hx : lastVal? (x :: xs) impl =
          xs.foldl (fun acc m => if m.1 = impl then some m.2 else acc)
            (if x.1 = impl then some x.2 else none) := rfl
      rw [hx, ih]
      cases hxs : lastVal? xs impl with
      | some v => rfl
      | none => by_cases hximpl : x.1 = impl <;> simp [hximpl]
  have hstep : lastVal? (m :: ms) impl =
      ms.foldl (fun acc m => if m.1 = impl then some m.2 else acc)
        (if m.1 = impl then some m.2 else none) := rfl
  rw [hstep, gen ms (if m.1 = impl then some m.2 else none)]

theorem nestedGet_foldl_impls (nt size : Nat) (pc : List Nat) (ms : List (String × ℚ))
    (data : ConcData) (impl : String) :
    nestedGet (ms.foldl (concImplStep nt size pc) data) (size, pc) impl nt =
      (match lastVal? ms impl with
       | some v => some v
       | none => nestedGet data (size, pc) impl nt) := by
  induction ms generalizing data with
  | nil => rfl
  | cons m ms ih =>
    rw [List.foldl_cons, ih, lastVal?_cons]
    cases hl : lastVal? ms impl with
    | some v => rfl
    | none =>
      by_cases hm : m.1 = impl
      · simp only [hm, if_pos rfl]
        show nestedGet (concImplStep nt size pc data m) (size, pc) impl nt = some m.2
        unfold nestedGet concImplStep
        rw [← hm]
        simp
      · simp only [if_neg hm]
        show nestedGet (concImplStep nt size pc data m) (size, pc) impl nt =
          nestedGet data (size, pc) impl nt
        unfold nestedGet concImplStep
        simp only [Py.get?_set_self, Option.getD_some]
        rw [Py.get?_set_ne _ _ _ _ (fun hh => hm (Eq.symm hh))]

/-- C1 (amended).  In `aggregate_runs` the canonical value kept for each
`(label, nthreads)` pair is the minimum of all observed times for that pair;
in `parse_conc_ll_results` a duplicate parallel measurement for the same
`(config, implementation, nthreads)` triple instead overwrites the earlier
one, so the canonical value is the last-written throughput (and the earlier
value survives only when no later duplicate exists). -/
theorem C1_duplicate_policy :
    (∀ (files : List KmeansFile) (label : String) (t : Nat),
        Py.get? ((Py.get? (aggregate_runs files).data label).getD []) t =
          minQ? (observedTimes (aggregate_runs files) label t))
    ∧ (∀ (b : ConcBlock) (data : ConcData) (impl : String),
        nestedGet (concBlockStep data b) (b.size, b.percents) impl b.nthreads =
          (match lastVal? b.impls impl with
           | some v => some v
           | none => nestedGet data (b.size, b.percents) impl b.nthreads)) :=
  ⟨fun files => minInv_aggregate_runs files,
   fun b data impl => nestedGet_foldl_impls b.nthreads b.size b.percents b.impls data impl⟩

/-- C1 counterexample.  Two raw measurements sharing the triple
`((1024, 100/0/0), "nb", 2 threads)` with throughputs `3.0` then `5.0`:
the canonical value `parse_conc_ll_results` keeps is `5.0`, the
last-written one, not the minimum `3.0`. -/
theorem C1_counterexample :
    nestedGet (parse_conc_ll_results []
        [⟨2, 1024, [100, 0, 0], [("nb", 3), ("nb", 5)]⟩]).2
        (1024, [100, 0, 0]) "nb" 2 = some 5
    ∧ minQ? [3, 5] = some 3
    ∧ (5 : ℚ) ≠ 3 := by
  refine ⟨rfl, ?_, by norm_num⟩
  show minQ? [3, 5] = some 3
  norm_num [minQ?]

/-! ## Sorting: membership is preserved -/

theorem mem_insortBy {α : Type} (lt : α → α → Bool) (x a : α) (l : List α) :
    a ∈ insortBy lt x l ↔ a = x ∨ a ∈ l := by
  induction l with
  | nil => simp [insortBy]
  | cons y ys ih =>
    cases h : lt x y with
    | true => simp [insortBy, h]
    | false =>
      rw [insortBy, h, if_neg Bool.false_ne_true]
      simp only [List.mem_cons, ih]
      tauto

theorem mem_sortBy {α : Type} (lt : α → α → Bool) (a : α) (l : List α) :
    a ∈ sortBy lt l ↔ a ∈ l := by
  induction l with
  | nil => simp [sortBy]
  | cons x xs ih => simp [sortBy, mem_insortBy, ih]

/-! ## `plot_speedup` (conc_ll): groups without a baseline -/

theorem plotSpeedupGo_baseline (sb : List (ConcKey × ℚ)) :
    ∀ (l : ConcData) (fig : ConcFig),
      fig ∈ (plotSpeedupGo sb l).1 → (Py.get? sb fig.key).isSome := by
  intro l
  induction l with
  | nil => intro fig h; simp [plotSpeedupGo] at h
  | cons p rest ih =>
    intro fig h
    obtain ⟨key, impl_data⟩ := p
    cases hk : Py.get? sb key with
    | none =>
      simp only [plotSpeedupGo, hk] at h
      exact ih fig h
    | some serial =>
      simp only [plotSpeedupGo, hk] at h
      rcases List.mem_cons.mp h with h1 | h1
      · subst h1
        simp [mkConcFig, hk]
      · exact ih fig h1

theorem plotSpeedupGo_warn (sb : List (ConcKey × ℚ)) :
    ∀ (l : ConcData) (key : ConcKey) (impl_data : List (String × List (Nat × ℚ))),
      (key, impl_data) ∈ l → Py.get? sb key = none →
        concWarn key ∈ (plotSpeedupGo sb l).2 := by
  intro l
  induction l with
  | nil => intro key impl_data h; simp at h
  | cons p rest ih =>
    intro key impl_data hmem hnone
    obtain ⟨key', impl_data'⟩ := p
    rcases List.mem_cons.mp hmem with h1 | h1
    · obtain ⟨e1, e2⟩ := Prod.mk.injEq .. ▸ h1
      subst e1
      simp only [plotSpeedupGo, hnone]
      exact List.mem_cons_self _ _
    · cases hk : Py.get? sb key' with
      | none =>
        simp only [plotSpeedupGo, hk]
        exact List.mem_cons_of_mem _ (ih key impl_data h1 hnone)
      | some s =>
        simp only [plotSpeedupGo, hk]
        exact ih key impl_data h1 hnone

/-- C2 (amended).  In the conc_ll pipeline a `(ConfigKey, Implementation)`
group with no serial baseline yields zero derived metrics (no figure is
produced for its configuration) and is surfaced as a non-fatal warning; no
placeholder is substituted there.  In `analyze_performance`, however, (i) a
missing sequential baseline aborts the whole analysis (`exit(1)`, modelled
as `Except.error`) rather than flagging the group, and (ii) in the speedup
bar plot the sequential time is substituted for any missing parallel
measurement, plotting placeholder speedup exactly 1. -/
theorem C2_missing_baseline :
    (∀ (sb : List (ConcKey × ℚ)) (data : ConcData) (fig : ConcFig),
        fig ∈ (plot_speedup sb data).1 → (Py.get? sb fig.key).isSome)
    ∧ (∀ (sb : List (ConcKey × ℚ)) (data : ConcData) (key : ConcKey)
        (impl_data : List (String × List (Nat × ℚ))),
        (key, impl_data) ∈ data → Py.get? sb key = none →
          concWarn key ∈ (plot_speedup sb data).2)
    ∧ (∀ (parsed : List (String × List (Nat × ℚ))),
        analyze_performance none parsed =
          .error "Error: Could not parse sequential time. Exiting.")
    ∧ (∀ (seq : ℚ) (d : List (Nat × ℚ)) (t : Nat), seq ≠ 0 → Py.get? d t = none →
        locksSpeedupEntry seq d t = 1) := by
  refine ⟨?_, ?_, fun _ => rfl, ?_⟩
  · intro sb data fig h
    exact plotSpeedupGo_baseline sb _ fig h
  · intro sb data key impl_data hmem hnone
    exact plotSpeedupGo_warn sb _ key impl_data
      ((mem_sortBy _ _ _).mpr hmem) hnone
  · intro seq d t hseq hnone
    unfold locksSpeedupEntry
    rw [hnone]
    exact div_self hseq

/-- C2 counterexample.  A group with parallel records but no sequential
baseline (`parse_sequential` returned `None`): `analyze_performance`
terminates the whole analysis with a fatal error instead of deriving zero
metrics for that group, surfacing a non-fatal warning and continuing. -/
theorem C2_counterexample :
    analyze_performance none [("Naive", [(1, (5 : ℚ))])] =
      .error "Error: Could not parse sequential time. Exiting." := rfl

theorem C2_witness :
    (Py.get? ([] : List (Nat × ℚ)) 4 = none ∧ locksSpeedupEntry 10 [] 4 = 1)
    ∧ concWarn (1024, [100, 0, 0]) ∈ (plot_speedup [] [((1024, [100, 0, 0]), [])]).2 :=
  ⟨⟨rfl, C2_missing_baseline.2.2.2 10 [] 4 (by norm_num) rfl⟩,
   C2_missing_baseline.2.1 [] [((1024, [100, 0, 0]), [])] (1024, [100, 0, 0]) []
    (List.mem_singleton.mpr rfl) rfl⟩

/-! ## Speedup formulas: exact quotients vs `round(..., 4)` -/

theorem roundHalfEven_intCast (z : ℤ) : roundHalfEven (z : ℚ) = z := by
  unfold roundHalfEven
  rw [Int.floor_intCast]
  norm_num

theorem pyRound4_eq_self_iff (q : ℚ) :
    pyRound4 q = q ↔ ∃ z : ℤ, (z : ℚ) = q * 10000 := by
  constructor
  · intro h
    exact ⟨roundHalfEven (q * 10000),
      (div_eq_iff (by norm_num : (10000 : ℚ) ≠ 0)).mp h⟩
  · rintro ⟨z, hz⟩
    unfold pyRound4
    rw [← hz, roundHalfEven_intCast, hz]
    field_simp

/-- C3 (amended).  In `analyze_performance` the derived speedup for a record
present at thread count `t` is exactly `seq_time / data[t]`; in Lab1's
`diagram.py` the derived speedup is `round(time_list[0] / time_list[i], 4)`,
the quotient rounded to four decimal places, which equals the exact quotient
precisely when that quotient is an integer multiple of `1/10000`.  The
baseline-10.0s / parallel-2.5s example yields exactly 4.0 on both paths. -/
theorem C3_speedup_exactness :
    (∀ (seq : ℚ) (d : List (Nat × ℚ)) (t : Nat) (v : ℚ),
        Py.get? d t = some v → locksTableEntry seq d t = some (seq / v))
    ∧ (∀ (t0 : ℚ) (rest : List ℚ),
        diagramSpeedupRow (t0 :: rest) = (t0 :: rest).map (fun ti => pyRound4 (t0 / ti)))
    ∧ (∀ q : ℚ, pyRound4 q = q ↔ ∃ z : ℤ, (z : ℚ) = q * 10000) := by
  refine ⟨?_, fun _ _ => rfl, pyRound4_eq_self_iff⟩
  intro seq d t v h
  unfold locksTableEntry
  rw [h]
  rfl

/-- C3 counterexample.  In `diagram.py`, times `[3.0, 7.0]` give the derived
speedup `round(3/7, 4) = 0.4286`, which is not `3/7`: the derived speedup is
not the exact quotient of baseline time by record time. -/
theorem C3_counterexample :
    diagramSpeedupRow [3, 7] = [1, 2143/5000] ∧ (2143/5000 : ℚ) ≠ 3/7 := by
  constructor
  · show [pyRound4 (3 / 3), pyRound4 (3 / 7)] = [1, 2143/5000]
    norm_num [pyRound4, roundHalfEven]
  · norm_num

theorem C3_witness :
    Py.get? [(4, (5/2 : ℚ))] 4 = some (5/2)
    ∧ locksTableEntry 10 [(4, (5/2 : ℚ))] 4 = some (10 / (5/2))
    ∧ (10 : ℚ) / (5/2) = 4 :=
  ⟨rfl, C3_speedup_exactness.1 10 [(4, 5/2)] 4 (5/2) rfl, by norm_num⟩

/-! ## Unit handling: the captured value enters the record verbatim -/

theorem lab3_fold_mem :
    ∀ (sections : List Lab3Section) (acc : List (String × List (Nat × ℚ)))
      (impl : String) (bs : Nat) (t : ℚ),
      (bs, t) ∈ (Py.get? (sections.foldl lab3SectionStep acc) impl).getD [] →
      (bs, t) ∈ (Py.get? acc impl).getD [] ∨
        ∃ s ∈ sections, s.hasBlockSize = true ∧ s.bs = some bs ∧
          s.t_loop_avg = some t ∧ s.implName = some impl := by
  intro sections
  induction sections with
  | nil => intro acc impl bs t h; exact Or.inl h
  | cons s rest ih =>
    intro acc impl bs t h
    rw [List.foldl_cons] at h
    rcases ih (lab3SectionStep acc s) impl bs t h with h1 | h1
    · -- membership already after the single step: analyse the step
      unfold lab3SectionStep at h1
      cases hbs : s.hasBlockSize with
      | false => simp only [hbs, Bool.not_false, if_pos rfl] at h1; exact Or.inl h1
      | true =>
        simp only [hbs, Bool.not_true, if_neg Bool.false_ne_true] at h1
        cases hsbs : s.bs with
        | none => rw [hsbs] at h1; exact Or.inl h1
        | some bs' =>
          cases hst : s.t_loop_avg with
          | none => rw [hsbs, hst] at h1; exact Or.inl h1
          | some t' =>
            cases hsi : s.implName with
            | none => rw [hsbs, hst, hsi] at h1; exact Or.inl h1
            | some impl' =>
              rw [hsbs, hst, hsi] at h1
              by_cases himpl : impl' = impl
              · subst himpl
                rw [Py.get?_set_self, Option.getD_some] at h1
                rcases List.mem_append.mp h1 with h2 | h2
                · exact Or.inl h2
                · rcases List.mem_singleton.mp h2 with h3
                  obtain ⟨e1, e2⟩ := Prod.mk.injEq .. ▸ h3
                  subst e1; subst e2
                  exact Or.inr ⟨s, List.mem_cons_self _ _, hbs, hsbs, hst, hsi⟩
              · rw [Py.get?_set_ne _ _ _ _ (fun hh => himpl (Eq.symm hh))] at h1
                exact Or.inl h1
    · obtain ⟨s', hs', hrest⟩ := h1
      exact Or.inr ⟨s', List.mem_cons_of_mem _ hs', hrest⟩

theorem kgApplyThreads_per_loop (ln : KgLine) (e : KmeansEntry) :
    (kgApplyThreads ln e).per_loop_time_s = e.per_loop_time_s := by
  unfold kgApplyThreads
  cases ln.threadsM <;> rfl

theorem kgScanBlock_per_loop :
    ∀ (ls : List KgLine) (e : KmeansEntry),
      (kgScanBlock ls e).1.per_loop_time_s = e.per_loop_time_s ∨
        ∃ ln ∈ ls, ∃ nl tot per, ln.timingM = some (nl, tot, per) ∧
          (kgScanBlock ls e).1.per_loop_time_s = some per := by
  intro ls
  induction ls with
  | nil => intro e; exact Or.inl rfl
  | cons ln rest ih =>
    intro e
    by_cases hh : ln.headerM.isSome
    · left
      simp [kgScanBlock, hh]
    · cases ht : ln.timingM with
      | some trip =>
        right
        obtain ⟨nl, tot, per⟩ := trip
        refine ⟨ln, List.mem_cons_self _ _, nl, tot, per, ht, ?_⟩
        simp [kgScanBlock, hh, ht]
      | none =>
        have hred : kgScanBlock (ln :: rest) e = kgScanBlock rest (kgApplyThreads ln e) := by
          simp [kgScanBlock, hh, ht]
        rw [hred]
        rcases ih (kgApplyThreads ln e) with h1 | h1
        · left
          rw [h1, kgApplyThreads_per_loop]
        · right
          obtain ⟨ln', hln', nl, tot, per, hm, hv⟩ := h1
          exact ⟨ln', List.mem_cons_of_mem _ hln', nl, tot, per, hm, hv⟩

theorem kgScanBlock_resume_subset :
    ∀ (ls : List KgLine) (e : KmeansEntry), (kgScanBlock ls e).2 ⊆ ls := by
  intro ls
  induction ls with
  | nil => intro e; simp [kgScanBlock]
  | cons ln rest ih =>
    intro e
    by_cases hh : ln.headerM.isSome
    · have : (kgScanBlock (ln :: rest) e).2 = ln :: rest := by simp [kgScanBlock, hh]
      rw [this]
      exact List.Subset.refl _
    · cases ht : ln.timingM with
      | some trip =>
        obtain ⟨nl, tot, per⟩ := trip
        have : (kgScanBlock (ln :: rest) e).2 = ln :: rest := by
          simp [kgScanBlock, hh, ht]
        rw [this]
        exact List.Subset.refl _
      | none =>
        have hred : (kgScanBlock (ln :: rest) e).2 =
            (kgScanBlock rest (kgApplyThreads ln e)).2 := by
          simp [kgScanBlock, hh, ht]
        rw [hred]
        exact List.Subset.trans (ih _) (List.subset_cons_self _ _)

theorem kgScan_time_verbatim :
    ∀ (fuel : Nat) (lines : List KgLine) (e : KmeansEntry),
      e ∈ kgScan fuel lines →
      e.per_loop_time_s = none ∨
        ∃ ln ∈ lines, ∃ nl tot per, ln.timingM = some (nl, tot, per) ∧
          e.per_loop_time_s = some per := by
  intro fuel
  induction fuel with
  | zero => intro lines e h; simp [kgScan] at h
  | succ fuel ih =>
    intro lines e h
    cases lines with
    | nil => simp [kgScan] at h
    | cons ln rest =>
      cases hh : ln.headerM with
      | some hq =>
        rw [show kgScan (fuel + 1) (ln :: rest) =
            (kgScanBlock rest (kgInitEntry hq)).1 ::
              kgScan fuel (kgScanBlock rest (kgInitEntry hq)).2 by
          simp only [kgScan, hh]] at h
        rcases List.mem_cons.mp h with h1 | h1
        · subst h1
          rcases kgScanBlock_per_loop rest (kgInitEntry hq) with h2 | h2
          · left; exact h2
          · right
            obtain ⟨ln', hln', nl, tot, per, hm, hv⟩ := h2
            exact ⟨ln', List.mem_cons_of_mem _ hln', nl, tot, per, hm, hv⟩
        · rcases ih _ e h1 with h2 | h2
          · left; exact h2
          · right
            obtain ⟨ln', hln', nl, tot, per, hm, hv⟩ := h2
            exact ⟨ln',
              List.mem_cons_of_mem _ (kgScanBlock_resume_subset rest (kgInitEntry hq) hln'),
              nl, tot, per, hm, hv⟩
      | none =>
        rw [show kgScan (fuel + 1) (ln :: rest) = kgScan fuel rest by
          simp only [kgScan, hh]] at h
        rcases ih rest e h with h1 | h1
        · left; exact h1
        · right
          obtain ⟨ln', hln', nl, tot, per, hm, hv⟩ := h1
          exact ⟨ln', List.mem_cons_of_mem _ hln', nl, tot, per, hm, hv⟩

/-- C4 (amended).  No unit conversion is performed anywhere in the
pipeline: each parser stores the numeric value exactly as captured from its
grammar — the lab3 grammars capture milliseconds (`t_loop_avg = ... ms`) and
store the millisecond number unchanged, and the lab2 kmeans grammar captures
seconds (`per loop = ...s`) and stores the second number unchanged.  Ratios
remain consistent only because numerator and denominator of a speedup come
from the same file and therefore share that file's unit. -/
theorem C4_no_unit_conversion :
    (∀ (sections : List Lab3Section) (impl : String) (bs : Nat) (t : ℚ),
        (bs, t) ∈ (Py.get? (lab3_parse_sections sections) impl).getD [] →
        ∃ s ∈ sections, s.hasBlockSize = true ∧ s.bs = some bs ∧
          s.t_loop_avg = some t ∧ s.implName = some impl)
    ∧ (∀ (lines : List KgLine) (e : KmeansEntry),
        e ∈ diagram_gen_parse_results lines →
        e.per_loop_time_s = none ∨
          ∃ ln ∈ lines, ∃ nl tot per, ln.timingM = some (nl, tot, per) ∧
            e.per_loop_time_s = some per) := by
  constructor
  · intro sections impl bs t h
    rcases lab3_fold_mem sections [] impl bs t h with h1 | h1
    · simp at h1
    · exact h1
  · intro lines e h
    exact kgScan_time_verbatim lines.length lines e h

/-- C4 counterexample.  A lab3 line carrying the milliseconds tag
(`t_loop_avg = 1500 ms`) enters the record as `1500`, not as the
seconds value `1.5`: no conversion factor is applied. -/
theorem C4_counterexample :
    Py.get? (lab3_parse_sections [⟨true, some 32, some 1500, some "Naive GPU"⟩])
        "Naive GPU" = some [(32, 1500)]
    ∧ (1500 : ℚ) ≠ 3/2 :=
  ⟨rfl, by norm_num⟩

theorem C4_witness :
    (32, (1500 : ℚ)) ∈
      (Py.get? (lab3_parse_sections [⟨true, some 32, some 1500, some "Naive GPU"⟩])
        "Naive GPU").getD []
    ∧ ∃ s ∈ [(⟨true, some 32, some 1500, some "Naive GPU"⟩ : Lab3Section)],
        s.hasBlockSize = true ∧ s.bs = some 32 ∧ s.t_loop_avg = some 1500 ∧
          s.implName = some "Naive GPU" := by
  have hmem : (32, (1500 : ℚ)) ∈
      (Py.get? (lab3_parse_sections [⟨true, some 32, some 1500, some "Naive GPU"⟩])
        "Naive GPU").getD [] := by decide
  exact ⟨hmem, C4_no_unit_conversion.1 _ "Naive GPU" 32 1500 hmem⟩

/-! ## Series contents: present levels only vs zero-fill -/

theorem Py.mem_keys_of_get? {K V : Type} [DecidableEq K] (d : List (K × V)) (k : K) (v : V)
    (h : Py.get? d k = some v) : k ∈ Py.keys d := by
  induction d with
  | nil => simp [Py.get?] at h
  | cons p rest ih =>
    obtain ⟨k', v'⟩ := p
    by_cases hk : k' = k
    · subst hk
      exact List.mem_cons_self _ _
    · rw [show Py.get? ((k', v') :: rest) k = Py.get? rest k by
        simp [Py.get?, hk]] at h
      exact List.mem_cons_of_mem _ (ih h)

theorem keys_subset_allThreads (impl_data : List (String × List (Nat × ℚ)))
    (impl : String) (results : List (Nat × ℚ)) (hmem : (impl, results) ∈ impl_data)
    (t : Nat) (ht : t ∈ Py.keys results) : t ∈ allThreadsOf impl_data := by
  unfold allThreadsOf
  rw [mem_sortBy, List.mem_dedup, List.mem_flatten]
  exact ⟨Py.keys results, List.mem_map_of_mem _ hmem, ht⟩

theorem mem_speedupSeriesFor (serial : ℚ) (ats : List Nat) (results : List (Nat × ℚ))
    (t : Nat) (s : ℚ) :
    (t, s) ∈ speedupSeriesFor serial ats results ↔
      t ∈ ats ∧ ∃ v, Py.get? results t = some v ∧ s = v / serial := by
  unfold speedupSeriesFor
  rw [List.mem_filterMap]
  constructor
  · rintro ⟨t', ht', hmap⟩
    cases hv : Py.get? results t' with
    | none => rw [hv] at hmap; simp at hmap
    | some v =>
      rw [hv] at hmap
      simp only [Option.map, Option.some.injEq, Prod.mk.injEq] at hmap
      obtain ⟨e1, e2⟩ := hmap
      subst e1
      exact ⟨ht', v, hv, e2.symm⟩
  · rintro ⟨hat, v, hv, hs⟩
    refine ⟨t, hat, ?_⟩
    rw [hv, hs]
    rfl

/-- C5 (amended).  In the conc_ll `plot_speedup` the series plotted for an
implementation contains exactly the concurrency levels that implementation
has a measurement for — a missing level is omitted, never interpolated or
filled.  The kmeans_locks module-level *time* bar plot, however, fills a
missing level with 0 (`data.get(t, 0)`), and its speedup plot substitutes
the baseline there (see C2); the FW bar plots fill missing levels with a
`NaN` placeholder. -/
theorem C5_series_membership :
    (∀ (impl_data : List (String × List (Nat × ℚ))) (impl : String)
        (results : List (Nat × ℚ)) (serial : ℚ) (t : Nat),
        (impl, results) ∈ impl_data →
        ((∃ s, (t, s) ∈ speedupSeriesFor serial (allThreadsOf impl_data) results) ↔
          (Py.get? results t).isSome))
    ∧ (∀ (d : List (Nat × ℚ)) (t : Nat), Py.get? d t = none → locksTimeEntry d t = 0) := by
  constructor
  · intro impl_data impl results serial t hmem
    constructor
    · rintro ⟨s, hs⟩
      obtain ⟨-, v, hv, -⟩ := (mem_speedupSeriesFor serial _ results t s).mp hs
      rw [hv]
      rfl
    · intro hsome
      cases hv : Py.get? results t with
      | none => rw [hv] at hsome; exact absurd hsome (by simp)
      | some v =>
        refine ⟨v / serial, (mem_speedupSeriesFor serial _ results t (v / serial)).mpr
          ⟨?_, v, hv, rfl⟩⟩
        exact keys_subset_allThreads impl_data impl results hmem t
          (Py.mem_keys_of_get? results t v hv)
  · intro d t h
    unfold locksTimeEntry
    rw [h]
    rfl

/-- C5 counterexample.  With thread counts `[1, 4]` and an implementation
measured only at level 1, the kmeans_locks time bar series holds `0` at
level 4: the missing level is zero-filled, not omitted. -/
theorem C5_counterexample :
    (analyze_performance (some 10)
        [("Naive", [(1, (5 : ℚ)), (4, 2)]), ("Critical", [(1, (6 : ℚ))])]).map
      (fun out => out.timeSeries) =
    .ok [("Naive", [5, 2]), ("Critical", [6, 0])] := rfl

theorem C5_witness :
    ("cgl", [(2, (4 : ℚ))]) ∈ [("cgl", [(2, (4 : ℚ))])]
    ∧ ((∃ s, (2, s) ∈ speedupSeriesFor 2 (allThreadsOf [("cgl", [(2, (4 : ℚ))])])
          [(2, (4 : ℚ))]) ↔ (Py.get? [(2, (4 : ℚ))] 2).isSome)
    ∧ Py.get? ([] : List (Nat × ℚ)) 7 = none
    ∧ locksTimeEntry [] 7 = 0 :=
  ⟨List.mem_singleton.mpr rfl,
   C5_series_membership.1 _ "cgl" _ 2 2 (List.mem_singleton.mpr rfl),
   rfl,
   C5_series_membership.2 [] 7 rfl⟩

/-! ## Context inheritance: the scan context is the last header of each kind -/

theorem clStep_ctx (st : ClState) (ln : ClLine) :
    (clStep st ln).current_size =
      (match ln with | ClLine.header s _ _ _ => some s | _ => st.current_size)
    ∧ (clStep st ln).current_perc =
      (match ln with | ClLine.header _ p1 p2 p3 => some (p1, p2, p3) | _ => st.current_perc)
    ∧ (clStep st ln).current_impl =
      (match ln with | ClLine.impl n => some n | _ => st.current_impl) := by
  obtain ⟨cs, cp, ci, data, serial⟩ := st
  cases ln with
  | impl n => exact ⟨rfl, rfl, rfl⟩
  | header s p1 p2 p3 => exact ⟨rfl, rfl, rfl⟩
  | other => exact ⟨rfl, rfl, rfl⟩
  | result nt w1 w2 w3 thr =>
    cases cs with
    | none => exact ⟨rfl, rfl, rfl⟩
    | some size =>
      cases cp with
      | none => exact ⟨rfl, rfl, rfl⟩
      | some perc =>
        cases ci with
        | none => exact ⟨rfl, rfl, rfl⟩
        | some impl =>
          refine ⟨?_, ?_, ?_⟩ <;>
            · simp only [clStep]
              split_ifs <;> rfl

theorem clScan_ctx_gen :
    ∀ (lines : List ClLine) (st : ClState),
      (lines.foldl clStep st).current_size =
        lines.foldl
          (fun acc ln => match ln with | ClLine.header s _ _ _ => some s | _ => acc)
          st.current_size
      ∧ (lines.foldl clStep st).current_perc =
        lines.foldl
          (fun acc ln => match ln with | ClLine.header _ p1 p2 p3 => some (p1, p2, p3) | _ => acc)
          st.current_perc
      ∧ (lines.foldl clStep st).current_impl =
        lines.foldl
          (fun acc ln => match ln with | ClLine.impl n => some n | _ => acc)
          st.current_impl := by
  intro lines
  induction lines with
  | nil => intro st; exact ⟨rfl, rfl, rfl⟩
  | cons ln rest ih =>
    intro st
    obtain ⟨h1, h2, h3⟩ := ih (clStep st ln)
    obtain ⟨g1, g2, g3⟩ := clStep_ctx st ln
    refine ⟨?_, ?_, ?_⟩
    · rw [List.foldl_cons, h1, g1]
      cases ln <;> rfl
    · rw [List.foldl_cons, h2, g2]
      cases ln <;> rfl
    · rw [List.foldl_cons, h3, g3]
      cases ln <;> rfl

theorem heatCtx_fold :
    ∀ (lines : List HeatLine) (c : Option Nat) (d : HeatData),
      (lines.foldl heatStep (c, d)).1 =
        lines.foldl
          (fun acc ln => match ln with | HeatLine.numTasks k => some k | _ => acc) c := by
  intro lines
  induction lines with
  | nil => intro c d; rfl
  | cons ln rest ih =>
    intro c d
    cases ln with
    | numTasks k => exact ih (some k) d
    | other => exact ih c d
    | jacobi size comp comm conv total =>
      have hstep : ∃ d', heatStep (c, d) (.jacobi size comp comm conv total) = (c, d') := by
        cases c with
        | none => exact ⟨d, rfl⟩
        | some p =>
          by_cases hp : p ≠ 0
          · refine ⟨Py.set d p (Py.set ((Py.get? d p).getD []) size
              ⟨comp, comm, conv, total⟩), ?_⟩
            simp [heatStep, hp]
          · refine ⟨d, ?_⟩
            simp [heatStep, hp]
      obtain ⟨d', hd⟩ := hstep
      rw [List.foldl_cons, hd]
      exact ih c d'

/-- C6.  The extractor context is always the last header seen of each kind:
after scanning any prefix, `plot.py`'s current size/workload/implementation
are the last header and implementation lines seen, and the heat-transfer
scan's current process count is the last `Num MPI Tasks` header.  A timing
line encountered before any header leaves the state untouched (skipped, not
fatal).  Concretely, after a single `SIZE=1024` header, two subsequent
timing lines both resolve to the configuration with size 1024, and two
Jacobi timing lines after `Num MPI Tasks: 16` both resolve to 16 processes. -/
theorem C6_context_inheritance :
    (∀ (lines : List ClLine),
        (clScan lines).current_size = clLastSize lines
        ∧ (clScan lines).current_perc = clLastPerc lines
        ∧ (clScan lines).current_impl = clLastImpl lines)
    ∧ (∀ (lines : List HeatLine), heatScanCtx lines = lastNumTasks lines)
    ∧ (∀ (st : ClState) (nt w1 w2 w3 : Nat) (thr : ℚ), st.current_size = none →
        clStep st (.result nt w1 w2 w3 thr) = st)
    ∧ parse_mpi_results [.jacobi 1024 1 1 1 2] = []
    ∧ parse_mpi_results [.numTasks 16, .jacobi 512 1 1 1 1, .jacobi 1024 1 1 1 2] =
        [(16, [(512, ⟨1, 1, 1, 1⟩), (1024, ⟨1, 1, 1, 2⟩)])]
    ∧ (clScan [.header 1024 100 0 0, .impl "x.cgl", .result 2 50 25 25 1,
        .result 4 50 25 25 2]).data =
        [((1024, (100, 0, 0)), [("x.cgl", [(2, 1), (4, 2)])])] := by
  refine ⟨?_, ?_, ?_, rfl, rfl, rfl⟩
  · intro lines
    exact clScan_ctx_gen lines clInit
  · intro lines
    exact heatCtx_fold lines none []
  · intro st nt w1 w2 w3 thr h
    obtain ⟨cs, cp, ci, data, serial⟩ := st
    simp only at h
    subst h
    rfl

theorem C6_witness :
    (clInit.current_size = none)
    ∧ clStep clInit (.result 8 50 25 25 (7 : ℚ)) = clInit :=
  ⟨rfl, C6_context_inheritance.2.2.1 clInit 8 50 25 25 7 rfl⟩

/-! ## FW backward context search: five-line window, silent discard -/

theorem searchNthreads_none_spec :
    ∀ (fuel : Nat) (all : List FwLine) (j : Nat),
      searchNthreads all j fuel = none →
      ∀ j', j' ≤ j → j < j' + fuel → (all.get? j').bind FwLine.nthreadsM = none := by
  intro fuel
  induction fuel with
  | zero => intro all j _ j' h1 h2; omega
  | succ fuel ih =>
    intro all j h j' h1 h2
    rcases eq_or_lt_of_le h1 with heq | hlt
    · subst heq
      cases hm : (all.get? j').bind FwLine.nthreadsM with
      | none => rfl
      | some k => rw [searchNthreads, hm] at h; cases h
    · cases hm : (all.get? j).bind FwLine.nthreadsM with
      | some k => rw [searchNthreads, hm] at h; cases h
      | none =>
        rw [searchNthreads, hm] at h
        have hj0 : j ≠ 0 := by omega
        rw [if_neg hj0] at h
        exact ih all (j - 1) h j' (by omega) (by omega)

theorem searchNthreads_some_spec :
    ∀ (fuel : Nat) (all : List FwLine) (j k : Nat),
      searchNthreads all j fuel = some k →
      ∃ j0, j0 ≤ j ∧ j < j0 + fuel ∧ (all.get? j0).bind FwLine.nthreadsM = some k ∧
        ∀ j', j0 < j' → j' ≤ j → (all.get? j').bind FwLine.nthreadsM = none := by
  intro fuel
  induction fuel with
  | zero => intro all j k h; cases h
  | succ fuel ih =>
    intro all j k h
    cases hm : (all.get? j).bind FwLine.nthreadsM with
    | some k' =>
      rw [searchNthreads, hm] at h
      refine ⟨j, le_refl j, by omega, ?_, ?_⟩
      · rw [hm]; exact h
      · intro j' hj1 hj2; omega
    | none =>
      rw [searchNthreads, hm] at h
      by_cases hj0 : j = 0
      · rw [if_pos hj0] at h; cases h
      · rw [if_neg hj0] at h
        obtain ⟨j0, hle, hlt, hm0, hnear⟩ := ih all (j - 1) k h
        refine ⟨j0, by omega, by omega, hm0, ?_⟩
        intro j' hj1 hj2
        rcases eq_or_lt_of_le hj2 with heq | hlt'
        · subst heq; exact hm
        · exact hnear j' hj1 (by omega)

theorem parseFwGo_diags :
    ∀ (all rem : List FwLine) (i : Nat) (cur : Option Nat)
      (data : List (Nat × FwSizeData)) (diags : List String),
      (parseFwGo all rem i cur (data, diags)).2 = diags := by
  intro all rem
  induction rem with
  | nil => intro i cur data diags; rfl
  | cons ln rest ih =>
    intro i cur data diags
    cases hs : ln.sizeM with
    | some nm =>
      simp only [parseFwGo, hs]
      exact ih _ _ _ _
    | none =>
      cases cur with
      | none =>
        simp only [parseFwGo, hs]
        exact ih _ _ _ _
      | some n =>
        cases hsr : ln.serialM with
        | some sm =>
          by_cases hn : sm.1 = n
          · simp only [parseFwGo, hs, hsr, if_pos hn]
            exact ih _ _ _ _
          · simp only [parseFwGo, hs, hsr, if_neg hn]
            exact ih _ _ _ _
        | none =>
          simp only [parseFwGo, hs, hsr]
          exact ih _ _ _ _

/-- C7 (amended).  A timing line that carries no concurrency level recovers
it by scanning at most the five immediately preceding lines for the nearest
`nthreads=` header (never an earlier, unrelated one); if no header lies in
that window the measurement is discarded — but silently: the skip is a bare
`continue`, and the parse emits no diagnostic at all. -/
theorem C7_bounded_lookback :
    (∀ (all : List FwLine) (i k : Nat), fwLookback all i = some k →
        ∃ j, j < i ∧ i ≤ j + 5 ∧ (all.get? j).bind FwLine.nthreadsM = some k ∧
          ∀ j', j < j' → j' < i → (all.get? j').bind FwLine.nthreadsM = none)
    ∧ (∀ (all : List FwLine) (i : Nat), fwLookback all i = none →
        ∀ j, j < i → i ≤ j + 5 → (all.get? j).bind FwLine.nthreadsM = none)
    ∧ (∀ (all : List FwLine) (i n : Nat) (ln : FwLine) (data : List (Nat × FwSizeData)),
        fwLookback all i = none → fwThreadUpdate all i n ln data = data)
    ∧ (∀ (lines : List FwLine), (parse_fw_recursive lines).2 = []) := by
  refine ⟨?_, ?_, ?_, ?_⟩
  · intro all i k h
    unfold fwLookback at h
    by_cases hi : i = 0
    · rw [if_pos hi] at h; cases h
    · rw [if_neg hi] at h
      obtain ⟨j0, hle, hlt, hm0, hnear⟩ := searchNthreads_some_spec 5 all (i - 1) k h
      refine ⟨j0, by omega, by omega, hm0, ?_⟩
      intro j' h1 h2
      exact hnear j' h1 (by omega)
  · intro all i h j hj1 hj2
    unfold fwLookback at h
    by_cases hi : i = 0
    · omega
    · rw [if_neg hi] at h
      exact searchNthreads_none_spec 5 all (i - 1) h j (by omega) (by omega)
  · intro all i n ln data h
    unfold fwThreadUpdate
    cases ht : ln.threadM with
    | none => rfl
    | some tt =>
      simp only [ht, h]
      split_ifs <;> rfl
  · intro lines
    exact parseFwGo_diags lines lines 0 none [] []

/-- C7 counterexample.  A timing line whose only `nthreads=` header sits
seven lines back (outside the five-line window) is discarded — its
measurement is absent from the result — but contrary to the claim no
diagnostic is emitted: the parse's diagnostic output is empty. -/
theorem C7_counterexample :
    parse_fw_recursive
      [⟨none, none, none, some 4⟩, ⟨some (1024, 1024), none, none, none⟩,
       ⟨none, none, none, none⟩, ⟨none, none, none, none⟩, ⟨none, none, none, none⟩,
       ⟨none, none, none, none⟩, ⟨none, none, none, none⟩,
       ⟨none, none, some (1024, 3), none⟩] =
      ([(1024, ⟨none, []⟩)], []) := rfl

theorem C7_witness :
    fwLookback [(⟨none, none, none, none⟩ : FwLine)] 1 = none
    ∧ fwThreadUpdate [(⟨none, none, none, none⟩ : FwLine)] 1 1024
        ⟨none, none, some (1024, 3), none⟩ [] = []
    ∧ fwLookback [(⟨none, none, none, some 4⟩ : FwLine),
        ⟨none, none, some (8, 1), none⟩] 1 = some 4
    ∧ ∃ j, j < 1 ∧ 1 ≤ j + 5 ∧
        ((([(⟨none, none, none, some 4⟩ : FwLine),
           ⟨none, none, some (8, 1), none⟩]).get? j).bind FwLine.nthreadsM = some 4) ∧
        ∀ j', j < j' → j' < 1 →
          ((([(⟨none, none, none, some 4⟩ : FwLine),
             ⟨none, none, some (8, 1), none⟩]).get? j').bind FwLine.nthreadsM = none) :=
  ⟨rfl,
   C7_bounded_lookback.2.2.1 [⟨none, none, none, none⟩] 1 1024
     ⟨none, none, some (1024, 3), none⟩ [] rfl,
   rfl,
   C7_bounded_lookback.1 [⟨none, none, none, some 4⟩, ⟨none, none, some (8, 1), none⟩]
     1 4 rfl⟩

/-! ## Non-positive times: NaN placeholders vs an unguarded division -/

theorem lab4MapDiv_zero (t0 : ℚ) :
    ∀ (l : List ℚ), (0 : ℚ) ∈ l →
      lab4MapDiv t0 l = .error "ZeroDivisionError: float division by zero" := by
  intro l
  induction l with
  | nil => intro h; simp at h
  | cons t ts ih =>
    intro h
    by_cases ht : t = 0
    · simp [lab4MapDiv, ht]
    · rcases List.mem_cons.mp h with h1 | h1
      · exact absurd h1.symm ht
      · rw [show lab4MapDiv t0 (t :: ts) =
            (match lab4MapDiv t0 ts with
             | .ok rest => .ok (t0 / t :: rest)
             | .error e => .error e) by simp [lab4MapDiv, ht]]
        rw [ih h1]

theorem lab4MapDiv_ok (t0 : ℚ) :
    ∀ (l : List ℚ), (∀ t ∈ l, t ≠ 0) →
      lab4MapDiv t0 l = .ok (l.map (fun t => t0 / t)) := by
  intro l
  induction l with
  | nil => intro _; rfl
  | cons t ts ih =>
    intro h
    have ht : t ≠ 0 := h t (List.mem_cons_self _ _)
    rw [show lab4MapDiv t0 (t :: ts) =
        (match lab4MapDiv t0 ts with
         | .ok rest => .ok (t0 / t :: rest)
         | .error e => .error e) by simp [lab4MapDiv, ht]]
    rw [ih (fun x hx => h x (List.mem_cons_of_mem _ hx))]
    rfl

/-- C8 (amended).  In FW `make_plots` a record with time 0 contributes a
`NaN` placeholder to the speedup bars (no crash), but no malformed-record
error is reported, and a negative time is not treated specially — its
(negative) speedup is computed like any other; other records are unaffected.
In lab4 `plot_mpi_results` the speedup division is unguarded, so a zero-time
record raises `ZeroDivisionError` and aborts the whole computation, while an
input with all nonzero times yields exactly the quotients. -/
theorem C8_nonpositive_times :
    (∀ (serial : ℚ) (threads : List (Nat × ℚ)) (t : Nat),
        Py.get? threads t = some 0 → fwSpeedupEntry serial threads t = none)
    ∧ (∀ (serial : ℚ) (threads : List (Nat × ℚ)) (t : Nat) (v : ℚ),
        Py.get? threads t = some v → v ≠ 0 →
          fwSpeedupEntry serial threads t = some (serial / v))
    ∧ (∀ (t0 : ℚ) (rest : List ℚ), (0 : ℚ) ∈ t0 :: rest →
        lab4_speedups (t0 :: rest) = .error "ZeroDivisionError: float division by zero")
    ∧ (∀ (t0 : ℚ) (rest : List ℚ), (∀ t ∈ t0 :: rest, t ≠ 0) →
        lab4_speedups (t0 :: rest) = .ok ((t0 :: rest).map (fun t => t0 / t))) := by
  refine ⟨?_, ?_, ?_, ?_⟩
  · intro serial threads t h
    unfold fwSpeedupEntry
    rw [h]
    simp
  · intro serial threads t v h hv
    unfold fwSpeedupEntry
    rw [h]
    simp [hv]
  · intro t0 rest h
    exact lab4MapDiv_zero t0 (t0 :: rest) h
  · intro t0 rest h
    exact lab4MapDiv_ok t0 (t0 :: rest) h

/-- C8 counterexample.  A record with time `0.0` in the lab4 MPI results:
the unguarded division crashes the metric computation (`ZeroDivisionError`)
instead of reporting a malformed-record error and omitting just that
record. -/
theorem C8_counterexample :
    lab4_speedups [2, 0] = .error "ZeroDivisionError: float division by zero" := rfl

theorem C8_witness :
    Py.get? [(4, (0 : ℚ))] 4 = some 0
    ∧ fwSpeedupEntry 10 [(4, (0 : ℚ))] 4 = none
    ∧ Py.get? [(4, (-2 : ℚ))] 4 = some (-2)
    ∧ fwSpeedupEntry 10 [(4, (-2 : ℚ))] 4 = some (10 / (-2))
    ∧ (0 : ℚ) ∈ [(2 : ℚ), 0]
    ∧ lab4_speedups [2, 0] = .error "ZeroDivisionError: float division by zero"
    ∧ lab4_speedups [2, 4] = .ok [1, 1/2] := by
  refine ⟨rfl, C8_nonpositive_times.1 10 [(4, 0)] 4 rfl,
    rfl, C8_nonpositive_times.2.1 10 [(4, -2)] 4 (-2) rfl (by norm_num),
    by norm_num, C8_nonpositive_times.2.2.1 2 [0] (by norm_num), ?_⟩
  have h := C8_nonpositive_times.2.2.2 2 [4] (by norm_num)
  rw [h]
  norm_num

/-! ## Efficiency: a percentage, not a fraction -/

/-- C9 (amended).  For a non-serial record present at a positive thread
count `t`, the efficiency cell `analyze_performance` derives is the
percentage `(speedup / t) * 100` where `speedup = seq_time / data[t]` — the
spec's ratio `speedup / concurrency_level` scaled by 100 (and printed with a
`%` sign); a thread count with no measurement gets `N/A`.  Speedup 4.0 at
concurrency level 8 therefore yields the value 50.0, i.e. 0.5 expressed as
a percentage. -/
theorem C9_efficiency_formula :
    (∀ (seq : ℚ) (d : List (Nat × ℚ)) (t : Nat) (v : ℚ), Py.get? d t = some v →
        locksEffEntry seq d t = some (seq / v / (t : ℚ) * 100))
    ∧ (∀ (seq : ℚ) (d : List (Nat × ℚ)) (t : Nat), Py.get? d t = none →
        locksEffEntry seq d t = none) := by
  constructor
  · intro seq d t v h
    unfold locksEffEntry
    rw [h]
    rfl
  · intro seq d t h
    unfold locksEffEntry
    rw [h]
    rfl

/-- C9 counterexample.  Baseline 40s and a record of 10s at 8 threads give
speedup 4.0; the efficiency value the code derives (and prints as `50.0%`)
is `50`, not the claimed `0.5`. -/
theorem C9_counterexample :
    (analyze_performance (some 40) [("Naive", [(8, (10 : ℚ))])]).map
        (fun out => out.efficiencyTable) =
      .ok [("Naive", [some 50])]
    ∧ (50 : ℚ) ≠ 1/2 := by
  constructor
  · norm_num [analyze_performance, Except.map, locksEffEntry, locksTimeEntry,
      locksSpeedupEntry, locksTableEntry, Py.get?, Py.keys, sortBy, insortBy, natLtB]
  · norm_num

theorem C9_witness :
    Py.get? [(8, (10 : ℚ))] 8 = some 10
    ∧ locksEffEntry 40 [(8, (10 : ℚ))] 8 = some (40 / 10 / (8 : ℚ) * 100)
    ∧ (40 : ℚ) / 10 / (8 : ℚ) * 100 = 50
    ∧ Py.get? ([] : List (Nat × ℚ)) 8 = none
    ∧ locksEffEntry 40 [] 8 = none :=
  ⟨rfl, C9_efficiency_formula.1 40 [(8, 10)] 8 10 rfl, by norm_num,
   rfl, C9_efficiency_formula.2 40 [] 8 rfl⟩

/-! ## Throughput-based speedups: parallel over serial -/

/-- C10.  In the concurrent-linked-list scripts the derived speedup at each
thread count is the parallel throughput divided by the serial baseline
throughput (the reciprocal orientation of the time-based ratio), and for a
positive baseline the speedup exceeds 1 exactly when the parallel
throughput exceeds the serial throughput. -/
theorem C10_throughput_orientation :
    (∀ (serial : ℚ) (ats : List Nat) (results : List (Nat × ℚ)) (t : Nat) (s : ℚ),
        (t, s) ∈ speedupSeriesFor serial ats results →
          ∃ v, Py.get? results t = some v ∧ s = v / serial)
    ∧ (∀ (serialOfKey : List (String × ℚ)) (impl : String) (runs : List (Nat × ℚ))
        (sv : ℚ) (series : List (Nat × ℚ)) (t : Nat) (s : ℚ),
        Py.get? serialOfKey impl = some sv → sv ≠ 0 →
        clSpeedupSeries serialOfKey impl runs = some series →
        (t, s) ∈ series → ∃ v, Py.get? runs t = some v ∧ s = v / sv)
    ∧ (∀ (serial v : ℚ), 0 < serial → (1 < v / serial ↔ serial < v)) := by
  refine ⟨?_, ?_, ?_⟩
  · intro serial ats results t s h
    obtain ⟨-, v, hv, hs⟩ := (mem_speedupSeriesFor serial ats results t s).mp h
    exact ⟨v, hv, hs⟩
  · intro serialOfKey impl runs sv series t s hsv hzero hser hmem
    unfold clSpeedupSeries at hser
    simp only [hsv] at hser
    rw [if_neg hzero] at hser
    rw [← Option.some.inj hser] at hmem
    obtain ⟨t', ht', hmap⟩ := List.mem_filterMap.mp hmem
    cases hv : Py.get? runs t' with
    | none => rw [hv] at hmap; simp at hmap
    | some v =>
      rw [hv] at hmap
      simp only [Option.map, Option.some.injEq, Prod.mk.injEq] at hmap
      obtain ⟨e1, e2⟩ := hmap
      subst e1
      exact ⟨v, hv, e2.symm⟩
  · intro serial v h
    exact one_lt_div h

theorem C10_witness :
    ((4, (3 : ℚ)) ∈ speedupSeriesFor 2 [4] [(4, (6 : ℚ))]
      ∧ ∃ v, Py.get? [(4, (6 : ℚ))] 4 = some v ∧ (3 : ℚ) = v / 2)
    ∧ ((0 : ℚ) < 2 ∧ ((1 : ℚ) < 6 / 2 ↔ (2 : ℚ) < 6)) := by
  have hmem : (4, (3 : ℚ)) ∈ speedupSeriesFor 2 [4] [(4, (6 : ℚ))] := by
    unfold speedupSeriesFor
    norm_num [Py.get?]
  refine ⟨⟨hmem, C10_throughput_orientation.1 2 [4] [(4, 6)] 4 3 hmem⟩,
    ⟨by norm_num, C10_throughput_orientation.2.2 2 6 (by norm_num)⟩⟩
